import Mathlib

/-!
Verification of the roster computation engine of `Roster_CreateExcel.py`.

Dates are embedded as proleptic-Gregorian ordinals (`Nat`, day 1 =
0001-01-01, a Monday), matching Python's `date.toordinal()`.  Python
strings are embedded as Lean `String` (lists of characters), machine
integers as `Nat`.  Fallible operations (list indexing, a raised
`ValueError`) are embedded with `Option` / `Except`.
-/

set_option maxRecDepth 4000

namespace Roster

/-- Gregorian leap-year test, as used by Python's `datetime.date`. -/
def isLeap (y : Nat) : Bool :=
  (y % 4 == 0 && y % 100 != 0) || y % 400 == 0

/-- Number of days in a month of a given year (Python `calendar` rules,
implicit in `datetime.date` arithmetic). -/
def daysInMonth (y m : Nat) : Nat :=
  if m = 2 then (if isLeap y then 29 else 28)
  else if m = 4 ∨ m = 6 ∨ m = 9 ∨ m = 11 then 30
  else 31

/-- Days in year `y` that precede month `m` (m counted 1..12). -/
def daysBeforeMonth (y : Nat) : Nat → Nat
  | 0 => 0
  | 1 => 0
  | (m + 2) => daysBeforeMonth y (m + 1) + daysInMonth y (m + 1)

/-- Days strictly before January 1 of year `y` (proleptic Gregorian). -/
def daysBeforeYear (y : Nat) : Nat :=
  365 * (y - 1) + (y - 1) / 4 - (y - 1) / 100 + (y - 1) / 400

/-- `date(y, m, d).toordinal()`: ordinal of a calendar date, day
0001-01-01 being ordinal 1. -/
def toOrdinal (y m d : Nat) : Nat :=
  daysBeforeYear y + daysBeforeMonth y m + d

/-- `date.weekday()`: 0 = Monday .. 6 = Sunday, from the ordinal
(ordinal 1 is a Monday). -/
def weekdayOf (ord : Nat) : Nat :=
  (ord + 6) % 7

/-- `monday_of_week` (source line 76): `d - timedelta(days=d.weekday())`. -/
def monday_of_week (d : Nat) : Nat :=
  d - weekdayOf d

/-- The `while cur <= stop` loop of `month_days` (source lines 69-74). -/
def month_days_loop (stop cur : Nat) : List Nat :=
  if cur ≤ stop then cur :: month_days_loop stop (cur + 1) else []
termination_by stop + 1 - cur
decreasing_by omega

/-- `month_days` (source lines 65-74): all days of the month, where
`start = date(year, month, 1)` and
`stop = date(year + (month == 12), (month % 12) + 1, 1) - 1 day`. -/
def month_days (year month : Nat) : List Nat :=
  month_days_loop
    (toOrdinal (year + (if month = 12 then 1 else 0)) ((month % 12) + 1) 1 - 1)
    (toOrdinal year month 1)

theorem month_days_loop_eq_range' (n : Nat) :
    ∀ stop cur, stop + 1 - cur = n → month_days_loop stop cur = List.range' cur n := by
  induction n with
  | zero =>
    intro stop cur h
    rw [month_days_loop]
    have : ¬ cur ≤ stop := by omega
    simp [this]
  | succ k ih =>
    intro stop cur h
    rw [month_days_loop]
    have hle : cur ≤ stop := by omega
    simp only [if_pos hle, List.range'_succ]
    exact congrArg _ (ih stop (cur + 1) (by omega))

set_option maxHeartbeats 1600000 in
theorem daysBeforeYear_succ (y : Nat) (hy : 1 ≤ y) :
    daysBeforeYear (y + 1) = daysBeforeYear y + (if isLeap y then 366 else 365) := by
  unfold daysBeforeYear isLeap
  by_cases hb : (y % 4 == 0 && y % 100 != 0 || y % 400 == 0) = true
  · rw [if_pos hb]
    simp only [Bool.or_eq_true, Bool.and_eq_true, beq_iff_eq, bne_iff_ne, ne_eq] at hb
    omega
  · rw [if_neg hb]
    simp only [Bool.or_eq_true, Bool.and_eq_true, beq_iff_eq, bne_iff_ne, ne_eq,
      not_or, not_and, not_not] at hb
    omega

theorem toOrdinal_next_month (y m : Nat) (hy : 1 ≤ y) (hm1 : 1 ≤ m) (hm2 : m ≤ 12) :
    toOrdinal (y + (if m = 12 then 1 else 0)) ((m % 12) + 1) 1
      = toOrdinal y m 1 + daysInMonth y m := by
  -- months 1-11 are the first branch; December (the second branch) rolls
  -- over to January of the next year
  interval_cases m <;>
    first
    | (simp [toOrdinal, daysBeforeMonth]; omega)
    | (simp only [toOrdinal, daysBeforeMonth, daysInMonth]
       norm_num
       rw [daysBeforeYear_succ y hy]
       by_cases h : isLeap y <;> simp [h])

theorem one_le_daysInMonth (y m : Nat) : 1 ≤ daysInMonth y m := by
  unfold daysInMonth
  split
  · split <;> omega
  · split <;> omega

theorem month_days_eq_range' (y m : Nat) (hy : 1 ≤ y) (hm1 : 1 ≤ m) (hm2 : m ≤ 12) :
    month_days y m = List.range' (toOrdinal y m 1) (daysInMonth y m) := by
  unfold month_days
  apply month_days_loop_eq_range'
  rw [toOrdinal_next_month y m hy hm1 hm2]
  have h1 : 1 ≤ daysInMonth y m := one_le_daysInMonth y m
  have h2 : 1 ≤ toOrdinal y m 1 := by unfold toOrdinal; omega
  omega

theorem month_days_jan2026 : month_days 2026 1 = List.range' 739617 31 := by
  rw [month_days_eq_range' 2026 1 (by omega) (by omega) (by omega)]
  norm_num [toOrdinal, daysBeforeYear, daysBeforeMonth, daysInMonth]

/-! ### String helpers: `str.strip`, `str.upper`, `str.replace(" ", "")` -/

/-- The ASCII whitespace characters removed by Python's `str.strip()`. -/
def pyIsSpace (c : Char) : Bool :=
  c == ' ' || c == '\t' || c == '\n' || c == '\r' || c == '\x0b' || c == '\x0c'

/-- `str.strip()` on a character list: drop whitespace from both ends. -/
def stripList (l : List Char) : List Char :=
  ((l.dropWhile pyIsSpace).reverse.dropWhile pyIsSpace).reverse

/-- Python `str.strip()`. -/
def pyStrip (s : String) : String := ⟨stripList s.data⟩

def asciiLower : List Char :=
  ['a', 'b', 'c', 'd', 'e', 'f', 'g', 'h', 'i', 'j', 'k', 'l', 'm',
   'n', 'o', 'p', 'q', 'r', 's', 't', 'u', 'v', 'w', 'x', 'y', 'z']

/-- Python `str.upper()` on one character (ASCII letters). -/
def upChar (c : Char) : Char :=
  if c ∈ asciiLower then Char.ofNat (c.toNat - 32) else c

/-- Python `str.upper()`. -/
def pyUpper (s : String) : String := ⟨s.data.map upChar⟩

/-- `s.replace(" ", "").upper()` on a character list (source line 86). -/
def cleanList (l : List Char) : List Char :=
  (l.filter (fun c => c != ' ')).map upChar

theorem upChar_not_mem {c : Char} (h : c ∉ asciiLower) : upChar c = c := if_neg h

theorem upChar_idem (c : Char) : upChar (upChar c) = upChar c := by
  by_cases h : c ∈ asciiLower
  · fin_cases h <;> decide
  · rw [upChar_not_mem h]; exact upChar_not_mem h

theorem pyIsSpace_upChar {c : Char} (h : pyIsSpace c = false) :
    pyIsSpace (upChar c) = false := by
  by_cases hm : c ∈ asciiLower
  · fin_cases hm <;> decide
  · rw [upChar_not_mem hm]; exact h

theorem upChar_ne_space {c : Char} (h : (c != ' ') = true) :
    (upChar c != ' ') = true := by
  by_cases hm : c ∈ asciiLower
  · fin_cases hm <;> decide
  · rw [upChar_not_mem hm]; exact h

theorem head?_dropWhile (p : Char → Bool) (l : List Char) :
    ∀ a, (l.dropWhile p).head? = some a → p a = false := by
  induction l with
  | nil => intro a ha; simp at ha
  | cons b t ih =>
    intro a ha
    by_cases hb : p b
    · rw [List.dropWhile_cons_of_pos hb] at ha
      exact ih a ha
    · rw [List.dropWhile_cons_of_neg hb] at ha
      simp at ha
      subst ha
      simpa using hb

theorem dropWhile_eq_self_of_head {p : Char → Bool} {l : List Char}
    (h : ∀ a, l.head? = some a → p a = false) : l.dropWhile p = l := by
  cases l with
  | nil => rfl
  | cons b t =>
    have hb := h b rfl
    simp [List.dropWhile_cons, hb]

theorem exists_append_dropWhile (p : Char → Bool) (l : List Char) :
    ∃ t, l = t ++ l.dropWhile p := by
  induction l with
  | nil => exact ⟨[], rfl⟩
  | cons b t ih =>
    by_cases hb : p b
    · obtain ⟨u, hu⟩ := ih
      exact ⟨b :: u, by rw [List.dropWhile_cons_of_pos hb, List.cons_append, ← hu]⟩
    · exact ⟨[], by rw [List.dropWhile_cons_of_neg hb, List.nil_append]⟩

theorem head?_stripList (l : List Char) :
    ∀ a, (stripList l).head? = some a → pyIsSpace a = false := by
  intro a ha
  unfold stripList at ha
  obtain ⟨t, ht⟩ := exists_append_dropWhile pyIsSpace (l.dropWhile pyIsSpace).reverse
  apply head?_dropWhile pyIsSpace l a
  have hm : l.dropWhile pyIsSpace
      = ((l.dropWhile pyIsSpace).reverse.dropWhile pyIsSpace).reverse ++ t.reverse := by
    calc l.dropWhile pyIsSpace
        = (l.dropWhile pyIsSpace).reverse.reverse := (List.reverse_reverse _).symm
      _ = (t ++ (l.dropWhile pyIsSpace).reverse.dropWhile pyIsSpace).reverse := by rw [← ht]
      _ = _ := by rw [List.reverse_append]
  rw [hm]
  cases hq : ((l.dropWhile pyIsSpace).reverse.dropWhile pyIsSpace).reverse with
  | nil => rw [hq] at ha; simp at ha
  | cons x xs =>
    rw [hq] at ha
    simp at ha
    simpa using ha

theorem getLast?_stripList (l : List Char) :
    ∀ a, (stripList l).getLast? = some a → pyIsSpace a = false := by
  intro a ha
  rw [← List.head?_reverse] at ha
  unfold stripList at ha
  rw [List.reverse_reverse] at ha
  exact head?_dropWhile pyIsSpace (l.dropWhile pyIsSpace).reverse a ha

theorem stripList_eq_self {l : List Char}
    (h1 : ∀ a, l.head? = some a → pyIsSpace a = false)
    (h2 : ∀ a, l.getLast? = some a → pyIsSpace a = false) :
    stripList l = l := by
  unfold stripList
  rw [dropWhile_eq_self_of_head h1]
  rw [dropWhile_eq_self_of_head (by intro a ha; rw [List.head?_reverse] at ha; exact h2 a ha)]
  exact List.reverse_reverse l

theorem head?_cleanList {l : List Char} (h : ∀ a, l.head? = some a → pyIsSpace a = false) :
    ∀ a, (cleanList l).head? = some a → pyIsSpace a = false := by
  cases l with
  | nil => intro a ha; simp [cleanList] at ha
  | cons b t =>
    have hb := h b rfl
    have hbs : (b != ' ') = true := by
      cases hcb : (b == ' ') with
      | false => simp [bne, hcb]
      | true =>
        exfalso
        have : b = ' ' := by exact eq_of_beq hcb
        rw [this] at hb
        simp [pyIsSpace] at hb
    intro a ha
    unfold cleanList at ha
    rw [List.filter_cons, if_pos hbs, List.map_cons] at ha
    simp at ha
    rw [← ha]
    exact pyIsSpace_upChar hb

theorem cleanList_reverse (l : List Char) :
    (cleanList l).reverse = cleanList l.reverse := by
  unfold cleanList
  rw [← List.map_reverse, ← List.filter_reverse]

theorem getLast?_cleanList {l : List Char}
    (h : ∀ a, l.getLast? = some a → pyIsSpace a = false) :
    ∀ a, (cleanList l).getLast? = some a → pyIsSpace a = false := by
  intro a ha
  rw [← List.head?_reverse, cleanList_reverse] at ha
  refine head?_cleanList ?_ a ha
  intro x hx
  rw [List.head?_reverse] at hx
  exact h x hx

theorem cleanList_ne_nil {l : List Char}
    (hne : l ≠ [])
    (h : ∀ a, l.head? = some a → pyIsSpace a = false) :
    cleanList l ≠ [] := by
  cases l with
  | nil => exact absurd rfl hne
  | cons b t =>
    have hb := h b rfl
    have hbs : (b != ' ') = true := by
      cases hcb : (b == ' ') with
      | false => simp [bne, hcb]
      | true =>
        exfalso
        have : b = ' ' := eq_of_beq hcb
        rw [this] at hb
        simp [pyIsSpace] at hb
    unfold cleanList
    rw [List.filter_cons, if_pos hbs, List.map_cons]
    exact List.cons_ne_nil _ _

theorem cleanList_idem (l : List Char) : cleanList (cleanList l) = cleanList l := by
  unfold cleanList
  rw [List.filter_map]
  have hfix : ((l.filter fun c => c != ' ').filter
      fun c => (upChar c != ' ')) = l.filter fun c => c != ' ' := by
    apply List.filter_eq_self.mpr
    intro a ha
    have hq := List.of_mem_filter ha
    exact upChar_ne_space hq
  simp only [Function.comp_def]
  rw [hfix, List.map_map]
  apply List.map_congr_left
  intro a _
  exact upChar_idem a

/-! ### `norm_code` (source lines 79-100) -/

/-- The variant-mapping if-chain of `norm_code` (source lines 87-100),
applied to the stripped, space-free, uppercased string `s`.  The set
literal on line 88 evaluates to `{"CO-HO", "COHO", "CO- HO"}` and the one
on line 90 to `{"AD-LEAVE", "ADLEAVE"}`. -/
def codeBranch (s : String) : String :=
  if s = "CO-HO" ∨ s = "COHO" ∨ s = "CO- HO" then "CO-HO"
  else if s = "AD-LEAVE" ∨ s = "ADLEAVE" then "AD-Leave"
  else if s = "WEEKOFF" ∨ s = "WEEK-OFF" ∨ s = "OFF" then "WO"
  else if s = "HOLIDAY" then "HO"
  else if s = "A" ∨ s = "B" ∨ s = "C" ∨ s = "G" ∨ s = "WO" ∨ s = "HO" ∨ s = "LEAVE" then
    (if s = "LEAVE" then "Leave" else s)
  else s

/-- `norm_code` (source lines 79-100): `if not x`, strip, `if not s`,
remove spaces + uppercase, then the variant mapping. -/
def norm_code (x : String) : String :=
  if x = "" then ""
  else if stripList x.data = [] then ""
  else codeBranch ⟨cleanList (stripList x.data)⟩

theorem norm_code_of_strip_nil {x : String} (h : stripList x.data = []) :
    norm_code x = "" := by
  unfold norm_code
  by_cases h0 : x = ""
  · rw [if_pos h0]
  · rw [if_neg h0, if_pos h]

/-- On the pass-through output `s` of a first normalization, a second
normalization is the identity. -/
theorem norm_code_fixed {l : List Char} (hne : l ≠ [])
    (hh : ∀ a, l.head? = some a → pyIsSpace a = false)
    (hl : ∀ a, l.getLast? = some a → pyIsSpace a = false) :
    norm_code ⟨cleanList l⟩ = codeBranch ⟨cleanList l⟩ := by
  have hcne : cleanList l ≠ [] := cleanList_ne_nil hne hh
  have hsne : (⟨cleanList l⟩ : String) ≠ "" := by
    intro hcon
    exact hcne (congrArg String.data hcon)
  have hstr : stripList (String.data ⟨cleanList l⟩) = cleanList l :=
    stripList_eq_self (head?_cleanList hh) (getLast?_cleanList hl)
  unfold norm_code
  rw [if_neg hsne]
  rw [show String.data ⟨cleanList l⟩ = cleanList l from rfl, hstr]
  rw [if_neg hcne, cleanList_idem]

theorem codeBranch_cases (s : String) :
    codeBranch s ∈ (["CO-HO", "AD-Leave", "WO", "HO", "Leave",
      "A", "B", "C", "G"] : List String) ∨ codeBranch s = s := by
  unfold codeBranch
  by_cases h1 : s = "CO-HO" ∨ s = "COHO" ∨ s = "CO- HO"
  · rw [if_pos h1]; left; decide
  rw [if_neg h1]
  by_cases h2 : s = "AD-LEAVE" ∨ s = "ADLEAVE"
  · rw [if_pos h2]; left; decide
  rw [if_neg h2]
  by_cases h3 : s = "WEEKOFF" ∨ s = "WEEK-OFF" ∨ s = "OFF"
  · rw [if_pos h3]; left; decide
  rw [if_neg h3]
  by_cases h4 : s = "HOLIDAY"
  · rw [if_pos h4]; left; decide
  rw [if_neg h4]
  by_cases h5 : s = "A" ∨ s = "B" ∨ s = "C" ∨ s = "G" ∨ s = "WO" ∨ s = "HO" ∨ s = "LEAVE"
  · rw [if_pos h5]
    by_cases h6 : s = "LEAVE"
    · rw [if_pos h6]; left; decide
    · rw [if_neg h6]
      rcases h5 with h | h | h | h | h | h | h <;> subst h
      · left; decide
      · left; decide
      · left; decide
      · left; decide
      · left; decide
      · left; decide
      · exact absurd rfl h6
  · rw [if_neg h5]; right; rfl

theorem norm_code_idem (x : String) : norm_code (norm_code x) = norm_code x := by
  by_cases h0 : x = ""
  · subst h0; rfl
  by_cases h1 : stripList x.data = []
  · rw [norm_code_of_strip_nil h1]
    rfl
  have hx : norm_code x = codeBranch ⟨cleanList (stripList x.data)⟩ := by
    unfold norm_code
    rw [if_neg h0, if_neg h1]
  rcases codeBranch_cases ⟨cleanList (stripList x.data)⟩ with hmem | hpass
  · -- output is one of the nine canonical literals, each a fixed point
    rw [hx]
    simp only [List.mem_cons, List.not_mem_nil, or_false] at hmem
    rcases hmem with h | h | h | h | h | h | h | h | h <;> rw [h] <;> decide
  · -- pass-through: the cleaned string is itself a fixed point
    rw [hx, hpass]
    rw [norm_code_fixed h1 (head?_stripList x.data) (getLast?_stripList x.data), hpass]

/-! ### Table ingestor: `load_employees_and_leaves` (source lines 113-197) -/

/-- `f"{month:02d}"`. -/
def pad2 (n : Nat) : String := if n < 10 then "0" ++ toString n else toString n

def monthAbbrevs : List String :=
  ["JAN", "FEB", "MAR", "APR", "MAY", "JUN", "JUL", "AUG", "SEP", "OCT", "NOV", "DEC"]

/-- Split a character list at each `-` (like `"01-Jan".split("-")`). -/
def splitDash (l : List Char) : List (List Char) :=
  match l with
  | [] => [[]]
  | c :: t =>
    match splitDash t with
    | [] => [[]]
    | h :: r => if c = '-' then [] :: h :: r else (c :: h) :: r

/-- Numeric value of a digit string (like `int` on a digit string). -/
def digitsToNat (l : List Char) : Nat :=
  l.foldl (fun a c => a * 10 + (c.toNat - 48)) 0

/-- Modelled behavior of `datetime.strptime(f"{lbl}-{year}", "%d-%b-%Y")`
(source line 145): a 1-2 digit day, a dash, a case-insensitive month
abbreviation; the day must be a valid day of that month in `year`.
Returns `(month, day)` on success, `none` on the parse failure caught by
the `except` clause. -/
def parseLabel (year : Nat) (lbl : String) : Option (Nat × Nat) :=
  match splitDash lbl.data with
  | [ds, ms] =>
    if ds ≠ [] ∧ ds.length ≤ 2 ∧ ds.all Char.isDigit then
      match monthAbbrevs.findIdx? (fun a => a == pyUpper ⟨ms⟩) with
      | some mi =>
        if 1 ≤ digitsToNat ds ∧ digitsToNat ds ≤ daysInMonth year (mi + 1) then
          some (mi + 1, digitsToNat ds)
        else none
      | none => none
    else none
  | _ => none

/-- One step of the date-column loop (source lines 139-149): title cells
from the 7th column onward that parse to a date of the target month. -/
def dcolStep (year month : Nat) (acc : List (Nat × Nat)) (p : Nat × String) :
    List (Nat × Nat) :=
  if 6 ≤ p.1 then
    (if pyStrip p.2 = "" then acc
     else match parseLabel year (pyStrip p.2) with
       | some md => if md.1 = month then acc ++ [(p.1, toOrdinal year md.1 md.2)] else acc
       | none => acc)
  else acc

/-- Date-column resolution (source lines 138-149): column index (≥ 6) to
date ordinal, in column order, keeping only dates of the target month. -/
def date_cols_of (title_row : List String) (year month : Nat) : List (Nat × Nat) :=
  title_row.enum.foldl (dcolStep year month) []

/-- `max(date_cols.keys(), default=5)` (source line 162). -/
def need_cols_of (dcols : List (Nat × Nat)) : Nat :=
  match dcols with
  | [] => 5
  | _ => dcols.foldl (fun a p => max a p.1) 0

/-- Right-padding of a short row with empty cells (source lines 163-164). -/
def pad_row (r : List String) (need : Nat) : List String :=
  if r.length ≤ need then r ++ List.replicate (need + 1 - r.length) "" else r

/-- Python `any(r)` on a row of strings: some cell is non-empty. -/
def pyAny (r : List String) : Bool := r.any (fun c => c != "")

/-- The six static-field reads `r[0]..r[5]` with `.strip()` (source lines
166-171); `none` models an out-of-range access. -/
def extract_fields (r : List String) :
    Option (String × String × String × String × String × String) :=
  match r.get? 0, r.get? 1, r.get? 2, r.get? 3, r.get? 4, r.get? 5 with
  | some c0, some c1, some c2, some c3, some c4, some c5 =>
    some (pyStrip c0, pyStrip c1, pyStrip c2, pyStrip c3, pyStrip c4, pyStrip c5)
  | _, _, _, _, _, _ => none

/-- The leave-extraction loop (source lines 179-183): for each date
column, normalize the cell; only non-empty codes become entries.  The new
entry is appended after the entries of the later columns so that `lookup`
(first match) sees the latest write, matching dict overwrite semantics.
`none` models an out-of-range access. -/
def extract_leaves (r : List String) : List (Nat × Nat) → Option (List (Nat × String))
  | [] => some []
  | p :: rest =>
    match r.get? p.1, extract_leaves r rest with
    | some cell, some lvs =>
      let code := norm_code cell
      some (if code = "" then lvs else lvs ++ [(p.2, code)])
    | _, _ => none

/-- One per-associate record (source lines 185-193). -/
structure Employee where
  sl : String
  name : String
  gender : String
  reporting_to : String
  support : String
  location : String
  leaves : List (Nat × String)
deriving DecidableEq, Repr

/-- Processing of one data row (source lines 158-193): `none` models an
out-of-range access; `some (diags, none)` a skipped row; `some (diags,
some emp)` an admitted row. -/
def process_row (dcols : List (Nat × Nat)) (seen : List String) (rnum : Nat)
    (r : List String) : Option (List (String × String) × Option Employee) :=
  if pyAny r = false then some ([], none)
  else
    match extract_fields (pad_row r (need_cols_of dcols)) with
    | none => none
    | some (sl, nm, gd, mg, sp, lc) =>
      if nm = "" then
        some ([("WARNING", "Row " ++ toString rnum ++ ": empty Associate Name -> skipped")],
          none)
      else
        match extract_leaves (pad_row r (need_cols_of dcols)) dcols with
        | none => none
        | some lvs =>
          some ((if nm ∈ seen then
              [("WARNING", "Duplicate associate name '" ++ nm ++ "' (row "
                ++ toString rnum ++ ")")]
            else []),
            some ⟨sl, nm, gd, mg, sp, lc, lvs⟩)

/-- The loop over the data rows (source lines 158-193), threading the
1-based row number, the `seen_names` set, and accumulating employees and
issues in emission order. -/
def processRows (dcols : List (Nat × Nat)) (rnum : Nat) (seen : List String) :
    List (List String) → Option (List Employee × List (String × String))
  | [] => some ([], [])
  | r :: rest =>
    match process_row dcols seen rnum r with
    | none => none
    | some (ds, eo) =>
      match processRows dcols (rnum + 1)
          (match eo with
           | some e => if e.name ∈ seen then seen else e.name :: seen
           | none => seen) rest with
      | none => none
      | some (emps, iss) =>
        some ((match eo with | some e => e :: emps | none => emps), ds ++ iss)

/-- `load_employees_and_leaves` (source lines 113-197) on the parsed CSV
rows.  The outer `Option` models a Python runtime error (out-of-range
access); `Except.error` models the `ValueError` raised on line 131. -/
def load_employees_and_leaves (rows : List (List String)) (year month : Nat) :
    Option (Except String (List Employee × List (String × String))) :=
  if rows.length < 3 then
    some (Except.error "CSV missing rows (need title row + header row + data rows)")
  else
    let dcols := date_cols_of (rows.headD []) year month
    let pre : List (String × String) :=
      if dcols = [] then
        [("ERROR", "No date columns in title row matched " ++ pad2 month ++ "-"
          ++ toString year)]
      else []
    match processRows dcols 3 [] (rows.drop 2) with
    | none => none
    | some (emps, iss) =>
      let post : List (String × String) :=
        if emps = [] then [("ERROR", "No employees parsed from CSV")] else []
      some (Except.ok (emps, pre ++ iss ++ post))

theorem dcolStep_ge {year month : Nat} {acc : List (Nat × Nat)} {p : Nat × String}
    (hacc : ∀ q ∈ acc, 6 ≤ q.1) : ∀ q ∈ dcolStep year month acc p, 6 ≤ q.1 := by
  intro q hq
  unfold dcolStep at hq
  by_cases h6 : 6 ≤ p.1
  · rw [if_pos h6] at hq
    by_cases hsl : pyStrip p.2 = ""
    · rw [if_pos hsl] at hq; exact hacc q hq
    · rw [if_neg hsl] at hq
      cases hpl : parseLabel year (pyStrip p.2) with
      | none => rw [hpl] at hq; exact hacc q hq
      | some md =>
        rw [hpl] at hq
        have hq' : q ∈ (if md.1 = month then acc ++ [(p.1, toOrdinal year md.1 md.2)]
            else acc) := hq
        by_cases hm : md.1 = month
        · rw [if_pos hm] at hq'
          rcases List.mem_append.mp hq' with h | h
          · exact hacc q h
          · simp at h
            rw [h]
            exact h6
        · rw [if_neg hm] at hq'; exact hacc q hq'
  · rw [if_neg h6] at hq; exact hacc q hq

theorem date_cols_keys_ge (title_row : List String) (year month : Nat) :
    ∀ q ∈ date_cols_of title_row year month, 6 ≤ q.1 := by
  unfold date_cols_of
  have main : ∀ (l : List (Nat × String)) (acc : List (Nat × Nat)),
      (∀ q ∈ acc, 6 ≤ q.1) →
      ∀ q ∈ l.foldl (dcolStep year month) acc, 6 ≤ q.1 := by
    intro l
    induction l with
    | nil => intro acc hacc; exact hacc
    | cons a t ih =>
      intro acc hacc
      exact ih (dcolStep year month acc a) (dcolStep_ge hacc)
  exact main title_row.enum [] (by intro q hq; simp at hq)

theorem foldl_max_init (l : List (Nat × Nat)) :
    ∀ a : Nat, a ≤ l.foldl (fun x p => max x p.1) a := by
  induction l with
  | nil => intro a; exact Nat.le_refl a
  | cons b t ih =>
    intro a
    calc a ≤ max a b.1 := Nat.le_max_left a b.1
      _ ≤ t.foldl (fun x p => max x p.1) (max a b.1) := ih (max a b.1)

theorem foldl_max_mem (l : List (Nat × Nat)) :
    ∀ a : Nat, ∀ p ∈ l, p.1 ≤ l.foldl (fun x p => max x p.1) a := by
  induction l with
  | nil => intro a p hp; simp at hp
  | cons b t ih =>
    intro a p hp
    rcases List.mem_cons.mp hp with h | h
    · subst h
      calc p.1 ≤ max a p.1 := Nat.le_max_right a p.1
        _ ≤ t.foldl (fun x q => max x q.1) (max a p.1) := foldl_max_init t (max a p.1)
    · exact ih (max a b.1) p h

theorem le_need_cols {dcols : List (Nat × Nat)} :
    ∀ p ∈ dcols, p.1 ≤ need_cols_of dcols := by
  intro p hp
  cases dcols with
  | nil => simp at hp
  | cons b t => exact foldl_max_mem (b :: t) 0 p hp

theorem five_le_need_cols {dcols : List (Nat × Nat)}
    (hge : ∀ q ∈ dcols, 6 ≤ q.1) : 5 ≤ need_cols_of dcols := by
  cases dcols with
  | nil => exact Nat.le_refl 5
  | cons b t =>
    have h1 : 6 ≤ b.1 := hge b (List.mem_cons_self b t)
    have h2 : b.1 ≤ (b :: t).foldl (fun x p => max x p.1) 0 :=
      foldl_max_mem (b :: t) 0 b (List.mem_cons_self b t)
    show 5 ≤ (b :: t).foldl (fun x p => max x p.1) 0
    omega

theorem need_lt_pad_row_length (r : List String) (need : Nat) :
    need < (pad_row r need).length := by
  unfold pad_row
  by_cases h : r.length ≤ need
  · rw [if_pos h]
    rw [List.length_append, List.length_replicate]
    omega
  · rw [if_neg h]
    omega

theorem extract_fields_isSome {r : List String} (h : 6 ≤ r.length) :
    (extract_fields r).isSome = true := by
  unfold extract_fields
  rw [List.get?_eq_get (by omega : 0 < r.length),
    List.get?_eq_get (by omega : 1 < r.length),
    List.get?_eq_get (by omega : 2 < r.length),
    List.get?_eq_get (by omega : 3 < r.length),
    List.get?_eq_get (by omega : 4 < r.length),
    List.get?_eq_get (by omega : 5 < r.length)]
  rfl

theorem extract_leaves_isSome (r : List String) :
    ∀ dcols : List (Nat × Nat), (∀ p ∈ dcols, p.1 < r.length) →
    (extract_leaves r dcols).isSome = true := by
  intro dcols
  induction dcols with
  | nil => intro _; rfl
  | cons p t ih =>
    intro hb
    have hp : p.1 < r.length := hb p (List.mem_cons_self p t)
    have ht := ih (fun q hq => hb q (List.mem_cons_of_mem p hq))
    unfold extract_leaves
    rw [List.get?_eq_get hp]
    cases hrec : extract_leaves r t with
    | none => rw [hrec] at ht; simp at ht
    | some lvs => rfl

theorem extract_leaves_values_ne {r : List String} :
    ∀ {dcols : List (Nat × Nat)} {lvs : List (Nat × String)},
      extract_leaves r dcols = some lvs → ∀ q ∈ lvs, q.2 ≠ "" := by
  intro dcols
  induction dcols with
  | nil =>
    intro lvs h q hq
    unfold extract_leaves at h
    cases h
    simp at hq
  | cons p t ih =>
    intro lvs h q hq
    unfold extract_leaves at h
    cases hc : r.get? p.1 with
    | none => rw [hc] at h; cases h
    | some cell =>
      rw [hc] at h
      cases hrec : extract_leaves r t with
      | none => rw [hrec] at h; cases h
      | some lvs0 =>
        rw [hrec] at h
        simp only [Option.some_inj] at h
        by_cases hcode : norm_code cell = ""
        · rw [if_pos hcode] at h
          subst h
          exact ih hrec q hq
        · rw [if_neg hcode] at h
          subst h
          rcases List.mem_append.mp hq with hm | hm
          · exact ih hrec q hm
          · simp at hm
            rw [hm]
            exact hcode

theorem process_row_isSome (dcols : List (Nat × Nat)) (seen : List String)
    (rnum : Nat) (r : List String) (hge : ∀ q ∈ dcols, 6 ≤ q.1) :
    (process_row dcols seen rnum r).isSome = true := by
  unfold process_row
  by_cases ha : pyAny r = false
  · rw [if_pos ha]; rfl
  · rw [if_neg ha]
    have hlen : 6 ≤ (pad_row r (need_cols_of dcols)).length := by
      have := need_lt_pad_row_length r (need_cols_of dcols)
      have := five_le_need_cols hge
      omega
    have hf := extract_fields_isSome hlen
    split
    next heq => rw [heq] at hf; simp at hf
    next sl nm gd mg sp lc heq =>
      split
      next => rfl
      next hnm =>
        have hlv := extract_leaves_isSome (pad_row r (need_cols_of dcols)) dcols (by
          intro q hq
          have h1 := le_need_cols q hq
          have h2 := need_lt_pad_row_length r (need_cols_of dcols)
          omega)
        split
        next heq2 => rw [heq2] at hlv; simp at hlv
        next lvs heq2 => rfl

theorem processRows_isSome (dcols : List (Nat × Nat)) (hge : ∀ q ∈ dcols, 6 ≤ q.1) :
    ∀ (rows : List (List String)) (rnum : Nat) (seen : List String),
      (processRows dcols rnum seen rows).isSome = true := by
  intro rows
  induction rows with
  | nil => intro rnum seen; rfl
  | cons r rest ih =>
    intro rnum seen
    unfold processRows
    have hr := process_row_isSome dcols seen rnum r hge
    split
    next heq => rw [heq] at hr; simp at hr
    next ds eo heq =>
      generalize (match eo with
        | some e => if e.name ∈ seen then seen else e.name :: seen
        | none => seen) = seen2
      split
      next heq2 =>
        have hrec := ih (rnum + 1) seen2
        rw [heq2] at hrec
        simp at hrec
      next emps iss heq2 => rfl

theorem load_ne_none (rows : List (List String)) (year month : Nat) :
    load_employees_and_leaves rows year month ≠ none := by
  unfold load_employees_and_leaves
  by_cases h3 : rows.length < 3
  · rw [if_pos h3]; intro h; cases h
  · rw [if_neg h3]
    intro hcon
    have hge := date_cols_keys_ge (rows.headD []) year month
    have hps := processRows_isSome (date_cols_of (rows.headD []) year month) hge
      (rows.drop 2) 3 []
    simp only [] at hcon
    split at hcon
    next heq => rw [heq] at hps; simp at hps
    next emps iss heq => cases hcon

/-! ### Shift engine: `build_month_grid` (source lines 204-254) -/

/-- `abc_order[i % 3]` for the 3-element rotation order. -/
def tupleGet3 (t : String × String × String) : Nat → String
  | 0 => t.1
  | 1 => t.2.1
  | _ => t.2.2

/-- The `start_bg` sanity normalization (source lines 218-221): uppercase,
default to `B` when not in `{B, G}`. -/
def effective_start (start_bg : String) : String :=
  if pyUpper start_bg = "B" ∨ pyUpper start_bg = "G" then pyUpper start_bg else "B"

/-- The weekday/rotation base-code rules (source lines 233-249) for an
employee name `nm` on ordinal day `d`; `start_bg` is already normalized. -/
def base_code (g_only bg_rotate : List String) (start_bg : String)
    (abc_order : String × String × String) (base_monday : Nat) (nm : String)
    (d : Nat) : String :=
  if 5 ≤ weekdayOf d then "WO"
  else if nm ∈ g_only then "G"
  else if nm ∈ bg_rotate then
    (if start_bg = "B" then
      (if (monday_of_week d - base_monday) / 7 % 2 = 0 then "B" else "G")
    else
      (if (monday_of_week d - base_monday) / 7 % 2 = 0 then "G" else "B"))
  else tupleGet3 abc_order ((monday_of_week d - base_monday) / 7 % 3)

/-- One grid cell (source lines 232-252): `emp["leaves"].get(d, base)`. -/
def cell_code (g_only bg_rotate : List String) (start_bg : String)
    (abc_order : String × String × String) (base_monday : Nat) (e : Employee)
    (d : Nat) : String :=
  match e.leaves.lookup d with
  | some c => c
  | none => base_code g_only bg_rotate start_bg abc_order base_monday e.name d

/-- Insertion into an ascending list of strings. -/
def insertSorted (x : String) : List String → List String
  | [] => [x]
  | y :: t => if x < y then x :: y :: t else y :: insertSorted x t

/-- Python `sorted` on a list of strings. -/
def sortStrings (l : List String) : List String := l.foldr insertSorted []

/-- `build_month_grid` (source lines 204-254).  Name sets are modelled as
lists; `.dedup` reproduces set semantics for the unmatched-name warnings. -/
def build_month_grid (employees : List Employee) (year month : Nat)
    (g_only bg_rotate : List String) (start_bg : String)
    (abc_order : String × String × String) :
    List Nat × List (List String) × List (String × String) :=
  let days := month_days year month
  let base_monday := monday_of_week (days.headD 0)
  let sb := effective_start start_bg
  let info : List (String × String) :=
    if pyUpper start_bg = "B" ∨ pyUpper start_bg = "G" then []
    else [("INFO", "start_bg not in {B,G}; defaulted to B")]
  let emp_names := employees.map Employee.name
  let warn_g := (sortStrings ((g_only.filter (fun n => n ∉ emp_names)).dedup)).map
    (fun n => ("WARNING", "G-only name not in CSV: '" ++ n ++ "'"))
  let warn_bg := (sortStrings ((bg_rotate.filter (fun n => n ∉ emp_names)).dedup)).map
    (fun n => ("WARNING", "B/G-rotate name not in CSV: '" ++ n ++ "'"))
  (days,
   employees.map (fun e =>
     days.map (cell_code g_only bg_rotate sb abc_order base_monday e)),
   info ++ warn_g ++ warn_bg)

theorem build_month_grid_days (employees : List Employee) (year month : Nat)
    (g_only bg_rotate : List String) (start_bg : String)
    (abc_order : String × String × String) :
    (build_month_grid employees year month g_only bg_rotate start_bg abc_order).1
      = month_days year month := rfl

theorem build_month_grid_grid (employees : List Employee) (year month : Nat)
    (g_only bg_rotate : List String) (start_bg : String)
    (abc_order : String × String × String) :
    (build_month_grid employees year month g_only bg_rotate start_bg abc_order).2.1
      = employees.map (fun e => (month_days year month).map
          (cell_code g_only bg_rotate (effective_start start_bg) abc_order
            (monday_of_week ((month_days year month).headD 0)) e)) := rfl

theorem build_month_grid_issues (employees : List Employee) (year month : Nat)
    (g_only bg_rotate : List String) (start_bg : String)
    (abc_order : String × String × String) :
    (build_month_grid employees year month g_only bg_rotate start_bg abc_order).2.2
      = (if pyUpper start_bg = "B" ∨ pyUpper start_bg = "G" then []
         else [("INFO", "start_bg not in {B,G}; defaulted to B")])
        ++ (sortStrings ((g_only.filter
              (fun n => n ∉ employees.map Employee.name)).dedup)).map
            (fun n => ("WARNING", "G-only name not in CSV: '" ++ n ++ "'"))
        ++ (sortStrings ((bg_rotate.filter
              (fun n => n ∉ employees.map Employee.name)).dedup)).map
            (fun n => ("WARNING", "B/G-rotate name not in CSV: '" ++ n ++ "'")) := rfl

theorem effective_start_invalid {sb : String} (h1 : pyUpper sb ≠ "B")
    (h2 : pyUpper sb ≠ "G") : effective_start sb = "B" := by
  unfold effective_start
  rw [if_neg]
  intro h
  rcases h with h | h
  · exact h1 h
  · exact h2 h

theorem effective_start_B : effective_start "B" = "B" := by decide

theorem filter_info_of_warn (l : List String) (msgf : String → String) :
    ((l.map (fun n => ("WARNING", msgf n))).filter
      (fun q : String × String => q.1 == "INFO")) = [] := by
  rw [List.filter_eq_nil_iff]
  intro a ha
  obtain ⟨n, _, rfl⟩ := List.mem_map.mp ha
  simp

theorem lookup_mem :
    ∀ {lvs : List (Nat × String)} {d : Nat} {c : String},
      lvs.lookup d = some c → ∃ k, (k, c) ∈ lvs := by
  intro lvs
  induction lvs with
  | nil => intro d c h; cases h
  | cons p t ih =>
    intro d c h
    obtain ⟨k, v⟩ := p
    by_cases hk : (d == k) = true
    · have hv : v = c := by
        simpa [List.lookup, hk] using h
      exact ⟨k, by rw [← hv]; exact List.mem_cons_self _ _⟩
    · have ht : t.lookup d = some c := by
        simpa [List.lookup, Bool.of_not_eq_true hk] using h
      obtain ⟨k', hk'⟩ := ih ht
      exact ⟨k', List.mem_cons_of_mem _ hk'⟩

theorem tupleGet3_ne {t : String × String × String} (h1 : t.1 ≠ "")
    (h2 : t.2.1 ≠ "") (h3 : t.2.2 ≠ "") : ∀ i, tupleGet3 t i ≠ "" := by
  intro i
  cases i with
  | zero => exact h1
  | succ j =>
    cases j with
    | zero => exact h2
    | succ k => exact h3

theorem base_code_ne {g_only bg_rotate : List String} {sb : String}
    {abc : String × String × String} (h1 : abc.1 ≠ "") (h2 : abc.2.1 ≠ "")
    (h3 : abc.2.2 ≠ "") (bm : Nat) (nm : String) (d : Nat) :
    base_code g_only bg_rotate sb abc bm nm d ≠ "" := by
  unfold base_code
  split
  · decide
  · split
    · decide
    · split
      · split
        · split <;> decide
        · split <;> decide
      · exact tupleGet3_ne h1 h2 h3 _

theorem process_row_emp {dcols : List (Nat × Nat)} {seen : List String}
    {rnum : Nat} {r : List String} {ds : List (String × String)} {e : Employee}
    (h : process_row dcols seen rnum r = some (ds, some e)) :
    extract_leaves (pad_row r (need_cols_of dcols)) dcols = some e.leaves := by
  unfold process_row at h
  by_cases ha : pyAny r = false
  · rw [if_pos ha] at h
    simp at h
  · rw [if_neg ha] at h
    split at h
    next => cases h
    next sl nm gd mg sp lc heq =>
      split at h
      next => simp at h
      next hnm =>
        split at h
        next => cases h
        next lvs heq2 =>
          simp only [Option.some_inj, Prod.mk.injEq] at h
          rw [heq2, ← h.2]

theorem processRows_leaves_ne (dcols : List (Nat × Nat)) :
    ∀ (rows : List (List String)) (rnum : Nat) (seen : List String)
      (emps : List Employee) (iss : List (String × String)),
      processRows dcols rnum seen rows = some (emps, iss) →
      ∀ e ∈ emps, ∀ q ∈ e.leaves, q.2 ≠ "" := by
  intro rows
  induction rows with
  | nil =>
    intro rnum seen emps iss h e he q hq
    unfold processRows at h
    simp only [Option.some_inj, Prod.mk.injEq] at h
    rw [← h.1] at he
    simp at he
  | cons r rest ih =>
    intro rnum seen emps iss h e he q hq
    unfold processRows at h
    split at h
    next => cases h
    next ds eo heq =>
      split at h
      next => cases h
      next emps0 iss0 heq2 =>
        simp only [Option.some_inj, Prod.mk.injEq] at h
        cases eo with
        | none =>
          rw [← h.1] at he
          exact ih _ _ _ _ heq2 e he q hq
        | some e' =>
          rw [← h.1] at he
          rcases List.mem_cons.mp he with heq3 | hmem
          · subst heq3
            exact extract_leaves_values_ne (process_row_emp heq) q hq
          · exact ih _ _ _ _ heq2 e hmem q hq

theorem load_ok_shape (rows : List (List String)) (year month : Nat)
    (h3 : ¬ rows.length < 3) :
    ∃ emps iss0,
      processRows (date_cols_of (rows.headD []) year month) 3 [] (rows.drop 2)
        = some (emps, iss0)
      ∧ load_employees_and_leaves rows year month
        = some (Except.ok (emps,
            (if date_cols_of (rows.headD []) year month = [] then
              [("ERROR", "No date columns in title row matched " ++ pad2 month ++ "-"
                ++ toString year)] else [])
            ++ iss0
            ++ (if emps = [] then [("ERROR", "No employees parsed from CSV")] else []))) := by
  have hge := date_cols_keys_ge (rows.headD []) year month
  have hps := processRows_isSome _ hge (rows.drop 2) 3 []
  cases hp : processRows (date_cols_of (rows.headD []) year month) 3 [] (rows.drop 2) with
  | none => rw [hp] at hps; simp at hps
  | some res =>
    obtain ⟨emps, iss0⟩ := res
    refine ⟨emps, iss0, rfl, ?_⟩
    unfold load_employees_and_leaves
    rw [if_neg h3]
    simp only []
    rw [hp]

theorem load_leaves_ne {rows : List (List String)} {year month : Nat}
    {emps : List Employee} {iss : List (String × String)}
    (h : load_employees_and_leaves rows year month = some (Except.ok (emps, iss))) :
    ∀ e ∈ emps, ∀ q ∈ e.leaves, q.2 ≠ "" := by
  by_cases h3 : rows.length < 3
  · unfold load_employees_and_leaves at h
    rw [if_pos h3] at h
    simp at h
  · obtain ⟨emps0, iss0, hp, hld⟩ := load_ok_shape rows year month h3
    rw [hld] at h
    simp only [Option.some_inj, Except.ok.injEq, Prod.mk.injEq] at h
    rw [← h.1]
    exact processRows_leaves_ne _ _ _ _ _ _ hp

theorem dropWhile_nil_of_all {l : List Char} :
    (∀ c ∈ l, pyIsSpace c = true) → l.dropWhile pyIsSpace = [] := by
  induction l with
  | nil => intro _; rfl
  | cons a t ih =>
    intro h
    rw [List.dropWhile_cons_of_pos (h a (List.mem_cons_self a t))]
    exact ih (fun c hc => h c (List.mem_cons_of_mem a hc))

theorem stripList_nil_of_all {l : List Char} (h : ∀ c ∈ l, pyIsSpace c = true) :
    stripList l = [] := by
  unfold stripList
  rw [dropWhile_nil_of_all h]
  rfl

/-! ### Concrete fixtures used by witnesses -/

/-- A minimal well-formed table: title row with `01-Jan` in the 7th
column, a header row, and one data row with a leave code on Jan 1. -/
def rowsW : List (List String) :=
  [["", "", "", "", "", "", "01-Jan"], ["h"], ["1", "Asha", "F", "M", "S", "L", "G"]]

/-- The employee record the ingestor produces for the data row of `rowsW`
(January 2026; ordinal 739617 = 2026-01-01). -/
def empW : Employee := ⟨"1", "Asha", "F", "M", "S", "L", [(739617, "G")]⟩

theorem loadW : load_employees_and_leaves rowsW 2026 1
    = some (Except.ok ([empW], [])) := by
  rfl

/-- The January 2026 grid row for `empW` with empty rotation sets: leave
override `G` on Jan 1, default A/B/C rotation elsewhere, `WO` weekends. -/
def rowW : List String :=
  ["G", "A", "WO", "WO", "B", "B", "B", "B", "B", "WO", "WO",
   "C", "C", "C", "C", "C", "WO", "WO", "A", "A", "A", "A", "A",
   "WO", "WO", "B", "B", "B", "B", "B", "WO"]

theorem gridW : (build_month_grid [empW] 2026 1 [] [] "B" ("A", "B", "C")).2.1
    = [rowW] := by
  rw [build_month_grid_grid, month_days_jan2026]
  decide

/-! ### Claims -/

/-- C1: for every employee and every Saturday/Sunday the base code is
`WO` regardless of rotation-group membership, and for every day the grid
cell is the leave code when the employee's leaves contain that exact
date, otherwise the base code; the grid consists exactly of these
per-day cells. -/
theorem C1_weekend_and_override :
    (∀ (employees : List Employee) (year month : Nat)
       (g_only bg_rotate : List String) (sb : String)
       (abc : String × String × String),
        (build_month_grid employees year month g_only bg_rotate sb abc).2.1
          = employees.map (fun e => (month_days year month).map
              (cell_code g_only bg_rotate (effective_start sb) abc
                (monday_of_week ((month_days year month).headD 0)) e)))
    ∧ (∀ (g_only bg_rotate : List String) (sb : String)
         (abc : String × String × String) (bm : Nat) (nm : String) (d : Nat),
        5 ≤ weekdayOf d → base_code g_only bg_rotate sb abc bm nm d = "WO")
    ∧ (∀ (g_only bg_rotate : List String) (sb : String)
         (abc : String × String × String) (bm : Nat) (e : Employee)
         (d : Nat) (c : String),
        e.leaves.lookup d = some c → cell_code g_only bg_rotate sb abc bm e d = c)
    ∧ (∀ (g_only bg_rotate : List String) (sb : String)
         (abc : String × String × String) (bm : Nat) (e : Employee) (d : Nat),
        e.leaves.lookup d = none →
          cell_code g_only bg_rotate sb abc bm e d
            = base_code g_only bg_rotate sb abc bm e.name d) := by
  refine ⟨build_month_grid_grid, ?_, ?_, ?_⟩
  · intro g b sb abc bm nm d h
    unfold base_code
    rw [if_pos h]
  · intro g b sb abc bm e d c h
    unfold cell_code
    rw [h]
  · intro g b sb abc bm e d h
    unfold cell_code
    rw [h]

theorem C1_witness :
    base_code [] [] "B" ("A", "B", "C") 739614 "X" 739619 = "WO"
    ∧ cell_code [] [] "B" ("A", "B", "C") 739614 empW 739617 = "G"
    ∧ cell_code [] [] "B" ("A", "B", "C") 739614 empW 739618
        = base_code [] [] "B" ("A", "B", "C") 739614 empW.name 739618 :=
  ⟨C1_weekend_and_override.2.1 [] [] "B" ("A", "B", "C") 739614 "X" 739619 (by decide),
   C1_weekend_and_override.2.2.1 [] [] "B" ("A", "B", "C") 739614 empW 739617 "G"
     (by decide),
   C1_weekend_and_override.2.2.2 [] [] "B" ("A", "B", "C") 739614 empW 739618
     (by decide)⟩

/-- C2: an employee in neither rotation set gets
`abcOrder[relativeWeek mod 3]` on every weekday, with `relativeWeek`
anchored to the Monday of the week of the month's first day; for January
2026 weekdays Jan 1-2 give `A` and Jan 5-9 give `B` (visible in the full
computed row). -/
theorem C2_abc_rotation :
    (∀ (g_only bg_rotate : List String) (sb : String)
       (abc : String × String × String) (bm : Nat) (nm : String) (d : Nat),
        nm ∉ g_only → nm ∉ bg_rotate → weekdayOf d < 5 →
        base_code g_only bg_rotate sb abc bm nm d
          = tupleGet3 abc ((monday_of_week d - bm) / 7 % 3))
    ∧ (build_month_grid [⟨"1", "X", "", "", "", "", []⟩] 2026 1 [] [] "B"
        ("A", "B", "C")).2.1
      = [["A", "A", "WO", "WO", "B", "B", "B", "B", "B", "WO", "WO",
          "C", "C", "C", "C", "C", "WO", "WO", "A", "A", "A", "A", "A",
          "WO", "WO", "B", "B", "B", "B", "B", "WO"]] := by
  constructor
  · intro g b sb abc bm nm d hg hb hw
    unfold base_code
    rw [if_neg (by omega), if_neg hg, if_neg hb]
  · rw [build_month_grid_grid, month_days_jan2026]
    decide

theorem C2_witness :
    base_code ["Y"] ["Z"] "B" ("A", "B", "C") 739614 "X" 739618
      = tupleGet3 ("A", "B", "C") ((monday_of_week 739618 - 739614) / 7 % 3) :=
  C2_abc_rotation.1 ["Y"] ["Z"] "B" ("A", "B", "C") 739614 "X" 739618
    (by decide) (by decide) (by decide)

/-- C3: a B/G-rotate employee alternates weekly keyed by the
Monday-anchored relative week (`B` on even weeks when the start side is
`B`, `G` on even weeks when it is `G`), and any other start side
(uppercased, i.e. case-insensitively) behaves exactly as `B` while
emitting exactly one INFO diagnostic. -/
theorem C3_bg_rotation :
    (∀ (g_only bg_rotate : List String) (abc : String × String × String)
       (bm : Nat) (nm : String) (d : Nat),
        nm ∉ g_only → nm ∈ bg_rotate → weekdayOf d < 5 →
        base_code g_only bg_rotate "B" abc bm nm d
            = (if (monday_of_week d - bm) / 7 % 2 = 0 then "B" else "G")
          ∧ base_code g_only bg_rotate "G" abc bm nm d
            = (if (monday_of_week d - bm) / 7 % 2 = 0 then "G" else "B"))
    ∧ (∀ (employees : List Employee) (year month : Nat)
         (g_only bg_rotate : List String) (sb : String)
         (abc : String × String × String),
        pyUpper sb ≠ "B" → pyUpper sb ≠ "G" →
        (build_month_grid employees year month g_only bg_rotate sb abc).1
            = (build_month_grid employees year month g_only bg_rotate "B" abc).1
          ∧ (build_month_grid employees year month g_only bg_rotate sb abc).2.1
            = (build_month_grid employees year month g_only bg_rotate "B" abc).2.1
          ∧ ((build_month_grid employees year month g_only bg_rotate sb abc).2.2.filter
              (fun q => q.1 == "INFO")).length = 1) := by
  constructor
  · intro g b abc bm nm d hg hb hw
    constructor
    · unfold base_code
      rw [if_neg (by omega), if_neg hg, if_pos hb, if_pos rfl]
    · unfold base_code
      rw [if_neg (by omega), if_neg hg, if_pos hb, if_neg (by decide)]
  · intro emps year month g b sb abc h1 h2
    refine ⟨rfl, ?_, ?_⟩
    · rw [build_month_grid_grid, build_month_grid_grid,
        effective_start_invalid h1 h2, effective_start_B]
    · rw [build_month_grid_issues,
        if_neg (by rintro (h | h); exacts [h1 h, h2 h]),
        List.filter_append, List.filter_append,
        filter_info_of_warn, filter_info_of_warn]
      simp

theorem C3_witness :
    base_code [] ["N"] "B" ("A", "B", "C") 739614 "N" 739617
        = (if (monday_of_week 739617 - 739614) / 7 % 2 = 0 then "B" else "G")
    ∧ ((build_month_grid [] 2026 1 [] [] "x" ("A", "B", "C")).2.2.filter
        (fun q => q.1 == "INFO")).length = 1 :=
  ⟨(C3_bg_rotation.1 [] ["N"] ("A", "B", "C") 739614 "N" 739617
      (by decide) (by decide) (by decide)).1,
   (C3_bg_rotation.2 [] 2026 1 [] [] "x" ("A", "B", "C")
      (by decide) (by decide)).2.2⟩

/-- C4: `norm_code` is idempotent on every input string, and the empty
string as well as any whitespace-only string normalizes to the empty
string. -/
theorem C4_norm_code_idempotent :
    (∀ x : String, norm_code (norm_code x) = norm_code x)
    ∧ norm_code "" = ""
    ∧ (∀ x : String, (∀ c ∈ x.data, pyIsSpace c = true) → norm_code x = "") := by
  refine ⟨norm_code_idem, rfl, ?_⟩
  intro x h
  exact norm_code_of_strip_nil (stripList_nil_of_all h)

theorem C4_witness :
    norm_code (norm_code "co - ho") = norm_code "co - ho"
    ∧ norm_code " \t " = "" :=
  ⟨C4_norm_code_idempotent.1 "co - ho",
   C4_norm_code_idempotent.2.2 " \t " (by decide)⟩

/-- C5: for every valid year and month 1-12 the day sequence (also the
one returned by the engine) has length equal to the number of days of the
month, is strictly ascending, and contains exactly the ordinals of that
month's calendar days — including December, whose end is computed by
rolling over to January of the next year. -/
theorem C5_month_days_complete (year month : Nat) (hy : 1 ≤ year)
    (hm1 : 1 ≤ month) (hm2 : month ≤ 12) :
    (month_days year month).length = daysInMonth year month
    ∧ (month_days year month).Pairwise (· < ·)
    ∧ (∀ d, d ∈ month_days year month ↔
        toOrdinal year month 1 ≤ d
          ∧ d < toOrdinal year month 1 + daysInMonth year month)
    ∧ (∀ dd, 1 ≤ dd → dd ≤ daysInMonth year month →
        toOrdinal year month dd ∈ month_days year month)
    ∧ (∀ (employees : List Employee) (g_only bg_rotate : List String)
         (sb : String) (abc : String × String × String),
        (build_month_grid employees year month g_only bg_rotate sb abc).1
          = month_days year month) := by
  have he := month_days_eq_range' year month hy hm1 hm2
  refine ⟨?_, ?_, ?_, ?_, fun _ _ _ _ _ => rfl⟩
  · rw [he]
    simp [List.length_range']
  · rw [he]
    exact List.pairwise_lt_range' _ _
  · intro d
    rw [he, List.mem_range'_1]
  · intro dd hd1 hd2
    rw [he, List.mem_range'_1]
    unfold toOrdinal
    omega

theorem C5_witness :
    (month_days 2026 12).length = daysInMonth 2026 12
    ∧ toOrdinal 2026 12 31 ∈ month_days 2026 12 :=
  ⟨(C5_month_days_complete 2026 12 (by decide) (by decide) (by decide)).1,
   (C5_month_days_complete 2026 12 (by decide) (by decide) (by decide)).2.2.2.1
     31 (by decide) (by decide)⟩

/-- C8: every date-column key is at least 6; a data row of any length
(including the empty row) is processed without out-of-range access
whenever the date-column keys are ≥ 6, as they always are; hence the
loader never crashes. -/
theorem C8_no_out_of_range :
    (∀ (title_row : List String) (year month : Nat),
      ∀ q ∈ date_cols_of title_row year month, 6 ≤ q.1)
    ∧ (∀ (dcols : List (Nat × Nat)) (seen : List String) (rnum : Nat)
         (r : List String), (∀ q ∈ dcols, 6 ≤ q.1) →
        (process_row dcols seen rnum r).isSome = true)
    ∧ (∀ (rows : List (List String)) (year month : Nat),
        load_employees_and_leaves rows year month ≠ none) :=
  ⟨date_cols_keys_ge,
   fun dcols seen rnum r hge => process_row_isSome dcols seen rnum r hge,
   load_ne_none⟩

theorem C8_witness :
    (process_row [(6, 739617)] [] 3 []).isSome = true
    ∧ (process_row [(6, 739617)] [] 3 ["1"]).isSome = true
    ∧ (process_row [] [] 3 ["1"]).isSome = true :=
  ⟨C8_no_out_of_range.2.1 [(6, 739617)] [] 3 [] (by decide),
   C8_no_out_of_range.2.1 [(6, 739617)] [] 3 ["1"] (by decide),
   C8_no_out_of_range.2.1 [] [] 3 ["1"] (by decide)⟩

/-- C9: an input whose stripped form is non-empty and whose cleaned form
(space-removed, uppercased) matches none of the mapped spelling variants
and none of the standard tokens passes through normalization unchanged as
a custom code. -/
theorem C9_passthrough (x : String) (h1 : stripList x.data ≠ [])
    (hs : ∀ t ∈ (["CO-HO", "COHO", "CO- HO", "AD-LEAVE", "ADLEAVE",
        "WEEKOFF", "WEEK-OFF", "OFF", "HOLIDAY",
        "A", "B", "C", "G", "WO", "HO", "LEAVE"] : List String),
      (⟨cleanList (stripList x.data)⟩ : String) ≠ t) :
    norm_code x = ⟨cleanList (stripList x.data)⟩ := by
  have h0 : x ≠ "" := by
    intro he
    apply h1
    rw [he]
    rfl
  unfold norm_code
  rw [if_neg h0, if_neg h1]
  unfold codeBranch
  rw [if_neg (by rintro (h | h | h) <;> exact hs _ (by decide) h),
    if_neg (by rintro (h | h) <;> exact hs _ (by decide) h),
    if_neg (by rintro (h | h | h) <;> exact hs _ (by decide) h),
    if_neg (hs _ (by decide)),
    if_neg (by rintro (h | h | h | h | h | h | h) <;> exact hs _ (by decide) h)]

theorem C9_witness : norm_code "sl 1" = "SL1" := by
  have h := C9_passthrough "sl 1" (by decide) (by decide)
  rw [h]
  decide

/-- C6: the ingestor raises its fatal error exactly when the table has
fewer than 3 rows; otherwise it returns normally, and the
no-date-columns and zero-employees conditions surface as ERROR
diagnostics in the returned issue list of the best-effort result. -/
theorem C6_fatal_iff_short (rows : List (List String)) (year month : Nat) :
    ((∃ msg, load_employees_and_leaves rows year month = some (Except.error msg))
      ↔ rows.length < 3)
    ∧ (¬ rows.length < 3 →
        ∃ emps iss,
          load_employees_and_leaves rows year month = some (Except.ok (emps, iss))
          ∧ (date_cols_of (rows.headD []) year month = [] →
              ("ERROR", "No date columns in title row matched " ++ pad2 month
                ++ "-" ++ toString year) ∈ iss)
          ∧ (emps = [] → ("ERROR", "No employees parsed from CSV") ∈ iss)) := by
  constructor
  · constructor
    · rintro ⟨msg, hmsg⟩
      by_contra h3
      obtain ⟨emps, iss0, _, hld⟩ := load_ok_shape rows year month h3
      rw [hld] at hmsg
      simp at hmsg
    · intro h3
      refine ⟨"CSV missing rows (need title row + header row + data rows)", ?_⟩
      unfold load_employees_and_leaves
      rw [if_pos h3]
  · intro h3
    obtain ⟨emps, iss0, hp, hld⟩ := load_ok_shape rows year month h3
    refine ⟨emps, _, hld, ?_, ?_⟩
    · intro hdc
      rw [if_pos hdc]
      exact List.mem_append_left _ (List.mem_cons_self _ _)
    · intro hemp
      rw [if_pos hemp]
      exact List.mem_append_right _ (List.mem_cons_self _ _)

theorem C6_witness :
    (∃ msg, load_employees_and_leaves [["x"], ["y"]] 2026 1
      = some (Except.error msg))
    ∧ (∃ emps iss,
        load_employees_and_leaves [[], [], []] 2026 1 = some (Except.ok (emps, iss))
        ∧ (date_cols_of ([[], [], []].headD []) 2026 1 = [] →
            ("ERROR", "No date columns in title row matched " ++ pad2 1 ++ "-"
              ++ toString 2026) ∈ iss)
        ∧ (emps = [] → ("ERROR", "No employees parsed from CSV") ∈ iss)) :=
  ⟨(C6_fatal_iff_short [["x"], ["y"]] 2026 1).1.mpr (by decide),
   (C6_fatal_iff_short [[], [], []] 2026 1).2 (by decide)⟩

/-- C7: a non-blank data row whose (non-empty) name was already seen is
admitted with exactly one WARNING diagnostic for that occurrence, and the
duplicate record — with its own independently extracted leave entries —
is appended to the employee sequence, neither merged nor dropped. -/
theorem C7_duplicate_kept (dcols : List (Nat × Nat)) (seen : List String)
    (rnum : Nat) (r : List String) (rest : List (List String))
    (sl nm gd mg sp lc : String) (lvs : List (Nat × String))
    (ha : pyAny r = true)
    (hf : extract_fields (pad_row r (need_cols_of dcols))
      = some (sl, nm, gd, mg, sp, lc))
    (hl : extract_leaves (pad_row r (need_cols_of dcols)) dcols = some lvs)
    (hnm : nm ≠ "") (hdup : nm ∈ seen) :
    process_row dcols seen rnum r
      = some ([("WARNING", "Duplicate associate name '" ++ nm ++ "' (row "
          ++ toString rnum ++ ")")],
        some ⟨sl, nm, gd, mg, sp, lc, lvs⟩)
    ∧ processRows dcols rnum seen (r :: rest)
      = (processRows dcols (rnum + 1) seen rest).map (fun res =>
          ((⟨sl, nm, gd, mg, sp, lc, lvs⟩ : Employee) :: res.1,
           ("WARNING", "Duplicate associate name '" ++ nm ++ "' (row "
             ++ toString rnum ++ ")") :: res.2)) := by
  have key : process_row dcols seen rnum r
      = some ([("WARNING", "Duplicate associate name '" ++ nm ++ "' (row "
          ++ toString rnum ++ ")")],
        some ⟨sl, nm, gd, mg, sp, lc, lvs⟩) := by
    unfold process_row
    simp only [ha, Bool.true_eq_false, if_false, hf, hl]
    rw [if_neg hnm, if_pos hdup]
  refine ⟨key, ?_⟩
  cases hres : processRows dcols (rnum + 1) seen rest with
  | none =>
    rw [Option.map_none']
    unfold processRows
    simp only [key, if_pos hdup, hres]
  | some res =>
    obtain ⟨emps, iss⟩ := res
    rw [Option.map_some']
    unfold processRows
    simp only [key, if_pos hdup, hres]
    rfl

theorem C7_witness :
    process_row [] ["Asha"] 4 ["2", "Asha", "F", "M", "S", "L"]
      = some ([("WARNING", "Duplicate associate name '" ++ "Asha" ++ "' (row "
          ++ toString 4 ++ ")")],
        some ⟨"2", "Asha", "F", "M", "S", "L", []⟩)
    ∧ processRows [] 4 ["Asha"] [["2", "Asha", "F", "M", "S", "L"]]
      = (processRows [] (4 + 1) ["Asha"] []).map (fun res =>
          ((⟨"2", "Asha", "F", "M", "S", "L", []⟩ : Employee) :: res.1,
           ("WARNING", "Duplicate associate name '" ++ "Asha" ++ "' (row "
             ++ toString 4 ++ ")") :: res.2)) :=
  C7_duplicate_kept [] ["Asha"] 4 ["2", "Asha", "F", "M", "S", "L"] []
    "2" "Asha" "F" "M" "S" "L" [] (by decide) (by decide) rfl
    (by decide) (by decide)

/-- C10: every cell of a grid built from ingested employees (with a
rotation order whose entries are non-empty, as the default `A`, `B`, `C`
is) is a non-empty string: stored leave codes are never empty, and the
weekend/rotation rules only produce non-empty base codes. -/
theorem C10_cells_nonempty (rows : List (List String)) (year month : Nat)
    (emps : List Employee) (iss : List (String × String))
    (hload : load_employees_and_leaves rows year month
      = some (Except.ok (emps, iss)))
    (g_only bg_rotate : List String) (sb : String)
    (abc : String × String × String)
    (h1 : abc.1 ≠ "") (h2 : abc.2.1 ≠ "") (h3 : abc.2.2 ≠ "") :
    ∀ row ∈ (build_month_grid emps year month g_only bg_rotate sb abc).2.1,
      ∀ cell ∈ row, cell ≠ "" := by
  intro row hrow cell hcell
  rw [build_month_grid_grid] at hrow
  obtain ⟨e, he, rfl⟩ := List.mem_map.mp hrow
  obtain ⟨d, hd, rfl⟩ := List.mem_map.mp hcell
  unfold cell_code
  cases hlk : e.leaves.lookup d with
  | none => exact base_code_ne h1 h2 h3 _ _ _
  | some c =>
    obtain ⟨k, hk⟩ := lookup_mem hlk
    exact load_leaves_ne hload e he (k, c) hk

theorem C10_witness : ("G" : String) ≠ "" := by
  have h := C10_cells_nonempty rowsW 2026 1 [empW] [] loadW [] [] "B"
    ("A", "B", "C") (by decide) (by decide) (by decide)
  refine h rowW ?_ "G" ?_
  · rw [gridW]
    exact List.mem_cons_self _ _
  · decide

end Roster
